import Mathlib

/-!
Verification of the Deterministic Token & History Subsystem of
`arbitre_qr_generator` (src/main.py), shallowly embedded in Lean 4.

The embedding covers: `normalize_string` (the canonicalizer),
`generate_security_key` (SHA-256 token derivation), `verify_key`
(verification flow), the template rendering core of `create_mailto_link`
(Python `str.format` over named fields), and the history ledger
(`load_history` / `save_history` / `add_to_history` / `clear_history`).

Unicode-dependent Python primitives (`str.strip`, `str.lower`,
`str.upper`, `re` whitespace, NFD decomposition, the `Mn` category) are
modelled character-wise with explicit tables covering ASCII and the
Latin-1 letter block — the character repertoire of the application.
Multi-character case mappings outside that repertoire (e.g. ß→SS) and
decompositions outside Latin-1 are not modelled.
-/

namespace ArbitreQR

/-- Python whitespace (the set stripped by `str.strip` and matched by
`\s` in `re` for `str` patterns): tab..carriage-return, the file/group
separators 0x1C–0x1F, space, NEL, NBSP and the Unicode space blocks. -/
def pyIsSpace (c : Char) : Bool :=
  let n := c.toNat
  (0x09 ≤ n && n ≤ 0x0D) || (0x1C ≤ n && n ≤ 0x1F) || n == 0x20 ||
  n == 0x85 || n == 0xA0 || n == 0x1680 || (0x2000 ≤ n && n ≤ 0x200A) ||
  n == 0x2028 || n == 0x2029 || n == 0x202F || n == 0x205F || n == 0x3000

/-- Python `str.lower`, character-wise, on ASCII and the Latin-1 letters
(À–Þ except ×).  Other characters are left unchanged. -/
def pyLowerChar (c : Char) : Char :=
  let n := c.toNat
  if 0x41 ≤ n ∧ n ≤ 0x5A then Char.ofNat (n + 32)
  else if 0xC0 ≤ n ∧ n ≤ 0xDE ∧ n ≠ 0xD7 then Char.ofNat (n + 32)
  else c

/-- Python `str.upper`, character-wise, on ASCII and the Latin-1 letters
(à–þ except ÷; ÿ→Ÿ).  Other characters are left unchanged. -/
def pyUpperChar (c : Char) : Char :=
  let n := c.toNat
  if 0x61 ≤ n ∧ n ≤ 0x7A then Char.ofNat (n - 32)
  else if 0xE0 ≤ n ∧ n ≤ 0xFE ∧ n ≠ 0xF7 then Char.ofNat (n - 32)
  else if n = 0xFF then Char.ofNat 0x178
  else c

/-- Canonical (NFD) decompositions of the Latin-1 accented letters, as
`(code, base, combining mark)`.  Letters without a decomposition
(æ ð ø þ ß …) are deliberately absent, as in the Unicode data. -/
def decompTable : List (Nat × Nat × Nat) :=
  [ (0xC0, 0x41, 0x300), (0xC1, 0x41, 0x301), (0xC2, 0x41, 0x302),
    (0xC3, 0x41, 0x303), (0xC4, 0x41, 0x308), (0xC5, 0x41, 0x30A),
    (0xC7, 0x43, 0x327),
    (0xC8, 0x45, 0x300), (0xC9, 0x45, 0x301), (0xCA, 0x45, 0x302),
    (0xCB, 0x45, 0x308),
    (0xCC, 0x49, 0x300), (0xCD, 0x49, 0x301), (0xCE, 0x49, 0x302),
    (0xCF, 0x49, 0x308),
    (0xD1, 0x4E, 0x303),
    (0xD2, 0x4F, 0x300), (0xD3, 0x4F, 0x301), (0xD4, 0x4F, 0x302),
    (0xD5, 0x4F, 0x303), (0xD6, 0x4F, 0x308),
    (0xD9, 0x55, 0x300), (0xDA, 0x55, 0x301), (0xDB, 0x55, 0x302),
    (0xDC, 0x55, 0x308),
    (0xDD, 0x59, 0x301),
    (0xE0, 0x61, 0x300), (0xE1, 0x61, 0x301), (0xE2, 0x61, 0x302),
    (0xE3, 0x61, 0x303), (0xE4, 0x61, 0x308), (0xE5, 0x61, 0x30A),
    (0xE7, 0x63, 0x327),
    (0xE8, 0x65, 0x300), (0xE9, 0x65, 0x301), (0xEA, 0x65, 0x302),
    (0xEB, 0x65, 0x308),
    (0xEC, 0x69, 0x300), (0xED, 0x69, 0x301), (0xEE, 0x69, 0x302),
    (0xEF, 0x69, 0x308),
    (0xF1, 0x6E, 0x303),
    (0xF2, 0x6F, 0x300), (0xF3, 0x6F, 0x301), (0xF4, 0x6F, 0x302),
    (0xF5, 0x6F, 0x303), (0xF6, 0x6F, 0x308),
    (0xF9, 0x75, 0x300), (0xFA, 0x75, 0x301), (0xFB, 0x75, 0x302),
    (0xFC, 0x75, 0x308),
    (0xFD, 0x79, 0x301), (0xFF, 0x79, 0x308) ]

/-- Model of unicodedata NFD normalization, character-wise, over the
modelled repertoire: a decomposable Latin-1 letter becomes base letter followed
by its combining mark, anything else is unchanged. -/
def decomp (c : Char) : List Char :=
  match decompTable.find? (fun e => e.1 == c.toNat) with
  | some e => [Char.ofNat e.2.1, Char.ofNat e.2.2]
  | none => [c]

/-- Whether unicodedata.category reports Mn, over the modelled repertoire: the
Combining Diacritical Marks block (all of whose code points are Mn). -/
def isMn (c : Char) : Bool := 0x300 ≤ c.toNat && c.toNat ≤ 0x36F

/-- A character the regex substitution dropping everything outside
[a-z0-9\s] keeps. -/
def keepChar (c : Char) : Bool :=
  ('a' ≤ c && c ≤ 'z') || ('0' ≤ c && c ≤ '9') || pyIsSpace c

/-- Python str.strip on a character list. -/
def pyStripList (l : List Char) : List Char :=
  ((l.dropWhile pyIsSpace).reverse.dropWhile pyIsSpace).reverse

/-- Whitespace-run collapsing: the regex substitution replacing every
maximal run of whitespace with a single ASCII space. -/
def collapseWs : List Char → List Char
  | [] => []
  | [c] => if pyIsSpace c then [' '] else [c]
  | c :: d :: cs =>
    if pyIsSpace c then
      if pyIsSpace d then collapseWs (d :: cs)
      else ' ' :: collapseWs (d :: cs)
    else c :: collapseWs (d :: cs)

/-- Model of `normalize_string` (src/main.py:1118): strip and lowercase, NFD
decompose, drop combining marks, drop characters other than lowercase
ASCII letters, digits and whitespace, collapse whitespace runs, strip. -/
def normalize_string (text : String) : String :=
  if text = "" then ""
  else
    let t1 := (pyStripList text.data).map pyLowerChar
    let t2 := t1.flatMap decomp
    let t3 := t2.filter (fun c => !(isMn c))
    let t4 := t3.filter keepChar
    String.mk (pyStripList (collapseWs t4))

/-! ### SHA-256 (FIPS 180-4), over byte lists, word arithmetic on `Nat`
modulo `2 ^ 32` -/

def w32 : Nat := 4294967296

def rotr (n x : Nat) : Nat := ((x >>> n) ||| (x <<< (32 - n))) % w32

/-- Round constants: fractional parts of the cube roots of the first 64
primes. -/
def shaK : List Nat :=
  [ 1116352408, 1899447441, 3049323471, 3921009573, 961987163, 1508970993,
    2453635748, 2870763221, 3624381080, 310598401, 607225278, 1426881987,
    1925078388, 2162078206, 2614888103, 3248222580, 3835390401, 4022224774,
    264347078, 604807628, 770255983, 1249150122, 1555081692, 1996064986,
    2554220882, 2821834349, 2952996808, 3210313671, 3336571891, 3584528711,
    113926993, 338241895, 666307205, 773529912, 1294757372, 1396182291,
    1695183700, 1986661051, 2177026350, 2456956037, 2730485921, 2820302411,
    3259730800, 3345764771, 3516065817, 3600352804, 4094571909, 275423344,
    430227734, 506948616, 659060556, 883997877, 958139571, 1322822218,
    1537002063, 1747873779, 1955562222, 2024104815, 2227730452, 2361852424,
    2428436474, 2756734187, 3204031479, 3329325298 ]

/-- Initial hash value: fractional parts of the square roots of the
first 8 primes. -/
def shaH0 : List Nat :=
  [ 1779033703, 3144134277, 1013904242, 2773480762,
    1359893119, 2600822924, 528734635, 1541459225 ]

/-- Pad a byte message: append 0x80, zero bytes, and the 64-bit
big-endian bit length, to a multiple of 64 bytes. -/
def shaPad (msg : List Nat) : List Nat :=
  let bitlen := msg.length * 8
  let zeros := (64 - ((msg.length + 9) % 64)) % 64
  msg ++ 0x80 :: List.replicate zeros 0 ++
    [ (bitlen >>> 56) % 256, (bitlen >>> 48) % 256, (bitlen >>> 40) % 256,
      (bitlen >>> 32) % 256, (bitlen >>> 24) % 256, (bitlen >>> 16) % 256,
      (bitlen >>> 8) % 256, bitlen % 256 ]

/-- Big-endian 32-bit words from bytes. -/
def toWords : List Nat → List Nat
  | b0 :: b1 :: b2 :: b3 :: rest =>
    ((b0 <<< 24) ||| (b1 <<< 16) ||| (b2 <<< 8) ||| b3) :: toWords rest
  | _ => []

/-- Split into 64-byte blocks: `n` counts the blocks still to emit. -/
def toBlocksAux : Nat → List Nat → List (List Nat)
  | 0, _ => []
  | n + 1, l => l.take 64 :: toBlocksAux n (l.drop 64)

/-- Split into 64-byte blocks. -/
def toBlocks (l : List Nat) : List (List Nat) :=
  toBlocksAux ((l.length + 63) / 64) l

/-- Extend the 16-word message schedule by `n` further words. -/
def extendSchedule : List Nat → Nat → List Nat
  | ws, 0 => ws
  | ws, n + 1 =>
    let l := ws.length
    let w16 := ws.getD (l - 16) 0
    let w15 := ws.getD (l - 15) 0
    let w7 := ws.getD (l - 7) 0
    let w2 := ws.getD (l - 2) 0
    let s0 := (rotr 7 w15) ^^^ (rotr 18 w15) ^^^ (w15 >>> 3)
    let s1 := (rotr 17 w2) ^^^ (rotr 19 w2) ^^^ (w2 >>> 10)
    extendSchedule (ws ++ [(w16 + s0 + w7 + s1) % w32]) n

/-- One compression round. -/
def shaRound (st : List Nat) (k w : Nat) : List Nat :=
  match st with
  | [a, b, c, d, e, f, g, h] =>
    let s1 := (rotr 6 e) ^^^ (rotr 11 e) ^^^ (rotr 25 e)
    let ch := (e &&& f) ^^^ ((e ^^^ 0xFFFFFFFF) &&& g)
    let t1 := (h + s1 + ch + k + w) % w32
    let s0 := (rotr 2 a) ^^^ (rotr 13 a) ^^^ (rotr 22 a)
    let mj := (a &&& b) ^^^ (a &&& c) ^^^ (b &&& c)
    let t2 := (s0 + mj) % w32
    [(t1 + t2) % w32, a, b, c, (d + t1) % w32, e, f, g]
  | st => st

/-- Compress one 64-byte block into the running hash value. -/
def compressBlock (hv : List Nat) (block : List Nat) : List Nat :=
  let ws := extendSchedule (toWords block) 48
  let kw := shaK.zip ws
  let fin := kw.foldl (fun st p => shaRound st p.1 p.2) hv
  hv.zipWith (fun x y => (x + y) % w32) fin

/-- SHA-256 of a byte message, as eight 32-bit words. -/
def sha256 (msg : List Nat) : List Nat :=
  (toBlocks (shaPad msg)).foldl compressBlock shaH0

def hexDigit (n : Nat) : Char :=
  if n < 10 then Char.ofNat (48 + n) else Char.ofNat (87 + n)

def wordHex (x : Nat) : List Char :=
  [ hexDigit ((x >>> 28) &&& 15), hexDigit ((x >>> 24) &&& 15),
    hexDigit ((x >>> 20) &&& 15), hexDigit ((x >>> 16) &&& 15),
    hexDigit ((x >>> 12) &&& 15), hexDigit ((x >>> 8) &&& 15),
    hexDigit ((x >>> 4) &&& 15), hexDigit (x &&& 15) ]

/-- Hex digest of SHA-256, as a character list (64 lowercase hex
digits). -/
def sha256hex (msg : List Nat) : List Char := (sha256 msg).flatMap wordHex

/-- UTF-8 encoding of one character. -/
def utf8Char (c : Char) : List Nat :=
  let n := c.toNat
  if n < 0x80 then [n]
  else if n < 0x800 then
    [0xC0 ||| (n >>> 6), 0x80 ||| (n &&& 0x3F)]
  else if n < 0x10000 then
    [0xE0 ||| (n >>> 12), 0x80 ||| ((n >>> 6) &&& 0x3F), 0x80 ||| (n &&& 0x3F)]
  else
    [0xF0 ||| (n >>> 18), 0x80 ||| ((n >>> 12) &&& 0x3F),
     0x80 ||| ((n >>> 6) &&& 0x3F), 0x80 ||| (n &&& 0x3F)]

/-- UTF-8 bytes of a string. -/
def utf8 (s : String) : List Nat := s.data.flatMap utf8Char

/-- The static secret baked into the token deriver (src/main.py:469). -/
def SEL_SECRET : String := "HANDBALL_ARBITRE_2025_SECRET_SALT"

/-- Model of `generate_security_key` (src/main.py:1183): normalize both names,
join the fields with `;`, SHA-256 the UTF-8 bytes, keep the first 10
hex digits, uppercase them. -/
def generate_security_key (equipe1 equipe2 date heure : String) : String :=
  let normalized_equipe1 := normalize_string equipe1
  let normalized_equipe2 := normalize_string equipe2
  let data_string := normalized_equipe1 ++ ";" ++ normalized_equipe2 ++ ";" ++
    date ++ ";" ++ heure ++ ";" ++ SEL_SECRET
  let hash_hex := sha256hex (utf8 data_string)
  String.mk ((hash_hex.take 10).map pyUpperChar)

/-! ### Whitespace words: proof-side view of collapse + strip

`wordsOf` splits a character list into its maximal whitespace-free
words; `joinWords` rejoins them with single spaces.  Together they are
proved equal to "collapse whitespace runs, then strip". -/

/-- One `foldr` step of word splitting: a whitespace character opens a
fresh (possibly empty) word boundary, any other character extends the
current word. -/
def wordsAux (c : Char) (acc : List (List Char)) : List (List Char) :=
  if pyIsSpace c then [] :: acc
  else
    match acc with
    | [] => [[c]]
    | w :: ws => (c :: w) :: ws

/-- The maximal whitespace-free words of a character list, in order. -/
def wordsOf (l : List Char) : List (List Char) :=
  (l.foldr wordsAux []).filter (fun w => w ≠ [])

/-- Join words with single ASCII spaces. -/
def joinWords : List (List Char) → List Char
  | [] => []
  | [w] => w
  | w :: ws => w ++ ' ' :: joinWords ws

/-- The accent/case/filter stages of the canonicalizer, with no
stripping or collapsing: lowercase, decompose, drop combining marks,
drop characters outside `[a-z0-9\s]`. -/
def pipeS (l : List Char) : List Char :=
  (((l.map pyLowerChar).flatMap decomp).filter (fun c => !(isMn c))).filter keepChar

/-- The canonicalizer stated in the spec's words (§4.1): "trim
leading/trailing whitespace; lowercase; decompose accented characters
dropping combining marks; drop every character that is not a lowercase
ASCII letter, digit, or space; collapse runs of whitespace to a single
space; trim again" — the last two steps expressed as joining the
whitespace-separated words with single spaces. -/
def canonicalize_spec (text : String) : String :=
  String.mk (joinWords (wordsOf (pipeS (pyStripList text.data))))

/-- The token deriver stated in the spec's words (§4.2): canonicalize
both participants, concatenate the five fields with `;` in the given
order, SHA-256 the UTF-8 bytes, keep the first 10 hex characters,
uppercase. -/
def derive_spec (participant_a participant_b date time : String) : String :=
  let canonical_a := canonicalize_spec participant_a
  let canonical_b := canonicalize_spec participant_b
  let data := canonical_a ++ ";" ++ canonical_b ++ ";" ++ date ++ ";" ++
    time ++ ";" ++ SEL_SECRET
  String.mk (((sha256hex (utf8 data)).take 10).map pyUpperChar)

/-- Two names differ only by letter case, accents/diacritics, or runs
of internal whitespace: the equivalence generated by replacing a
character with a case variant, replacing an accented letter with its
base letter, and duplicating a whitespace character. -/
inductive NameEquiv : List Char → List Char → Prop
  | refl (l) : NameEquiv l l
  | symm {l m} : NameEquiv l m → NameEquiv m l
  | trans {l m n} : NameEquiv l m → NameEquiv m n → NameEquiv l n
  | caseStep (xs ys : List Char) (c c' : Char)
      (h : pyLowerChar c = pyLowerChar c') :
      NameEquiv (xs ++ c :: ys) (xs ++ c' :: ys)
  | accentStep (xs ys : List Char) (c b : Char) (ms : List Char)
      (h1 : decomp (pyLowerChar c) = pyLowerChar b :: ms)
      (h2 : ∀ m ∈ ms, isMn m = true)
      (h3 : decomp (pyLowerChar b) = [pyLowerChar b])
      (h4 : isMn (pyLowerChar b) = false) :
      NameEquiv (xs ++ c :: ys) (xs ++ b :: ys)
  | wsStep (xs ys : List Char) (w w' : Char)
      (h1 : pyIsSpace w = true) (h2 : pyIsSpace w' = true) :
      NameEquiv (xs ++ w :: ys) (xs ++ w :: w' :: ys)

/-! ### Verifier -/

/-- Outcome of `verify_key`: the two early-return validation branches,
or the comparison verdict together with the masked expected key shown
in the details pane. -/
inductive VerifyResult
  | missingFields
  | lengthError
  | outcome (valid : Bool) (masked : String)
deriving DecidableEq

/-- Whether a `verify_key` outcome reported a valid key. -/
def reports_valid : VerifyResult → Bool
  | .outcome b _ => b
  | _ => false

/-- Model of `verify_key` (src/main.py:1383): strip the two names, strip and
uppercase the candidate; reject when any is empty, then when the
candidate is not 10 characters; otherwise recompute the expected key
and compare, masking all but the last 4 characters in the report. -/
def verify_key (equipe1 equipe2 candidate date heure : String) : VerifyResult :=
  let e1 := String.mk (pyStripList equipe1.data)
  let e2 := String.mk (pyStripList equipe2.data)
  let key_to_check := String.mk ((pyStripList candidate.data).map pyUpperChar)
  if e1 = "" ∨ e2 = "" ∨ key_to_check = "" then .missingFields
  else if key_to_check.length ≠ 10 then .lengthError
  else
    let expected_key := generate_security_key e1 e2 date heure
    let masked := "******" ++
      String.mk (expected_key.data.drop (expected_key.data.length - 4))
    .outcome (key_to_check == expected_key) masked

/-! ### Template renderer (`str.format` core of `create_mailto_link`)

Python's `str.format` is modelled for simple named replacement fields:
doubled braces are brace escapes, a braced name looks the name up
among the keyword arguments and raises when it is absent, a lone brace
is a syntax error.  Conversion and format-spec suffixes are
outside the modelled subset — the application's templates use bare
names only. -/

/-- Errors of the modelled `str.format`: a stray or unterminated brace
(Python `ValueError`), or a replacement field naming no bound variable
(Python `KeyError`). -/
inductive FormatError
  | braceError
  | unknownField (name : String)
deriving DecidableEq

/-- Split `name}rest` into `(name, rest)` at the first closing brace;
`none` when there is no closing brace. -/
def splitField (l : List Char) : Option (List Char × List Char) :=
  match l.dropWhile (fun c => c ≠ '}') with
  | '}' :: rest => some (l.takeWhile (fun c => c ≠ '}'), rest)
  | _ => none

/-- The scanner of the modelled `str.format` over the template's
characters. -/
def formatList (v : String → Option String) : List Char → Except FormatError (List Char)
  | [] => .ok []
  | '{' :: '{' :: rest => (fun t => '{' :: t) <$> formatList v rest
  | '}' :: '}' :: rest => (fun t => '}' :: t) <$> formatList v rest
  | '}' :: _ => .error .braceError
  | '{' :: rest =>
    match h : splitField rest with
    | some (name, rest2) =>
      if name.elem '{' then .error .braceError
      else
        match v (String.mk name) with
        | some val => (fun t => val.data ++ t) <$> formatList v rest2
        | none => .error (.unknownField (String.mk name))
    | none => .error .braceError
  | c :: rest => (fun t => c :: t) <$> formatList v rest
termination_by l => l.length
decreasing_by
  · simp only [List.length_cons]; omega
  · simp only [List.length_cons]; omega
  · simp only [List.length_cons]
    unfold splitField at h
    have hle := (List.dropWhile_sublist (l := rest) (fun c => c ≠ '}')).length_le
    revert h
    split
    · next heq =>
      intro h
      injection h with h
      injection h with ha hb
      subst hb
      have hlen := congrArg List.length heq
      simp only [List.length_cons] at hlen
      omega
    · intro h; exact absurd h (by simp)
  · simp only [List.length_cons]; omega

/-- String-level entry point of the modelled format scanner. -/
def pyFormat (template : String) (v : String → Option String) :
    Except FormatError String :=
  (formatList v template.data).map String.mk

/-- The keyword binding used by `create_mailto_link`
(src/main.py:1210): the five recognized variables `EQUIPE1`, `EQUIPE2`,
`DATE`, `HEURE`, `CLE`, the names bound to the original (stripped,
non-canonicalized) display values. -/
def mailtoVars (equipe1 equipe2 date heure security_key : String) :
    String → Option String := fun n =>
  if n = "EQUIPE1" then some (String.mk (pyStripList equipe1.data))
  else if n = "EQUIPE2" then some (String.mk (pyStripList equipe2.data))
  else if n = "DATE" then some date
  else if n = "HEURE" then some heure
  else if n = "CLE" then some security_key
  else none

/-- The template-rendering core of `create_mailto_link`
(src/main.py:1210): the email body produced by substituting the five
variables into the user template.  (The surrounding mailto URL assembly
and percent-encoding are outside the modelled core.) -/
def create_mailto_body (template equipe1 equipe2 date heure security_key : String) :
    Except FormatError String :=
  pyFormat template (mailtoVars equipe1 equipe2 date heure security_key)

/-- A template split into segments: literal characters and replacement
fields.  Used to state what rendering does to each placeholder. -/
inductive Seg
  | lit (c : Char)
  | field (name : String)

/-- The concrete text of a segment. -/
def flattenSeg : Seg → List Char
  | .lit c => [c]
  | .field n => '{' :: n.data ++ ['}']

/-- The concrete text of a segment list. -/
def flattenSegs (l : List Seg) : List Char := l.flatMap flattenSeg

/-- A well-formed segment: a literal that is not a brace, or a field
whose name contains no brace. -/
def goodSeg : Seg → Prop
  | .lit c => c ≠ '{' ∧ c ≠ '}'
  | .field n => ∀ c ∈ n.data, c ≠ '{' ∧ c ≠ '}'

instance : DecidablePred goodSeg := fun s => by
  cases s <;> simp only [goodSeg] <;> infer_instance

/-- Reference rendering over segments: literals pass through, each
field is replaced by its bound value, an unbound field aborts with an
unknown-field error. -/
def renderSegs (v : String → Option String) : List Seg → Except FormatError (List Char)
  | [] => .ok []
  | .lit c :: rest => (fun t => c :: t) <$> renderSegs v rest
  | .field n :: rest =>
    match v n with
    | some val => (fun t => val.data ++ t) <$> renderSegs v rest
    | none => .error (.unknownField n)

/-! ### History ledger -/

/-- One record of `qr_history.json` (the dict built in
`add_to_history`, src/main.py:1314). -/
structure HistoryEntry where
  timestamp : String
  equipe1 : String
  equipe2 : String
  date : String
  heure : String
  security_key : String
deriving DecidableEq

/-- The backing file of the ledger: absent, unparsable, or holding a
serialized entry list.  `json.dump`/`json.load` round-tripping of the
entry list is taken as given; serialization itself is not modelled. -/
inductive Store
  | missing
  | corrupt
  | content (entries : List HistoryEntry)
deriving DecidableEq

/-- Model of `load_history` (src/main.py:1485): the parsed file contents,
or an empty list when the file is absent or unreadable (the except
clause swallows every error). -/
def load_history : Store → List HistoryEntry
  | .content l => l
  | _ => []

/-- How an attempted write of the history file ends: full success,
failure to open (previous contents untouched), or failure mid-write
(the file was already truncated by opening with mode w, so partial
contents remain). -/
inductive WriteOutcome
  | ok
  | openFail
  | midFail
deriving DecidableEq

/-- Model of `save_history` (src/main.py:1500): write the whole list to
the file.  The returned Bool is whether an error escapes to the caller
— `false` in every branch, because the except clause catches and
ignores any failure. -/
def save_history (fs : Store) (hist : List HistoryEntry) :
    WriteOutcome → Store × Bool
  | .ok => (.content hist, false)
  | .openFail => (fs, false)
  | .midFail => (.corrupt, false)

/-- The mutable application state touched by the ledger: the in-memory
list and the backing file. -/
structure AppState where
  generation_history : List HistoryEntry
  store : Store
deriving DecidableEq

/-- The entry dict built by `add_to_history`: timestamp, stripped
display names, date, time, key. -/
def mkHistoryEntry (now equipe1 equipe2 date heure security_key : String) :
    HistoryEntry :=
  { timestamp := now
    equipe1 := String.mk (pyStripList equipe1.data)
    equipe2 := String.mk (pyStripList equipe2.data)
    date := date
    heure := heure
    security_key := security_key }

/-- Model of `add_to_history` (src/main.py:1314): append the new entry to the
in-memory list and persist the whole list.  The Bool is whether an
error reached the caller. -/
def add_to_history (st : AppState) (now equipe1 equipe2 date heure security_key : String)
    (o : WriteOutcome) : AppState × Bool :=
  let entry := mkHistoryEntry now equipe1 equipe2 date heure security_key
  let hist := st.generation_history ++ [entry]
  let saved := save_history st.store hist o
  (⟨hist, saved.1⟩, saved.2)

/-- Model of `clear_history` (src/main.py:1542), after user confirmation: empty
the in-memory list and persist. -/
def clear_history (st : AppState) (o : WriteOutcome) : AppState × Bool :=
  let saved := save_history st.store [] o
  (⟨[], saved.1⟩, saved.2)

/-- Startup with no prior history file: `generation_history =
load_history()` over an absent file. -/
def initialState : AppState := ⟨load_history .missing, .missing⟩

/-- Append a list of generation inputs
`(now, equipe1, equipe2, date, heure, security_key)` to the ledger, every
write succeeding. -/
def appendAll (st : AppState)
    (inputs : List (String × String × String × String × String × String)) :
    AppState :=
  inputs.foldl
    (fun st i =>
      (add_to_history st i.1 i.2.1 i.2.2.1 i.2.2.2.1 i.2.2.2.2.1 i.2.2.2.2.2 .ok).1)
    st

/-- The entry a generation input denotes. -/
def entryOf (i : String × String × String × String × String × String) :
    HistoryEntry :=
  mkHistoryEntry i.1 i.2.1 i.2.2.1 i.2.2.2.1 i.2.2.2.2.1 i.2.2.2.2.2

/-- Drop trailing whitespace. -/
def dropTrailWs (l : List Char) : List Char :=
  (l.reverse.dropWhile pyIsSpace).reverse

/-- The single leading space that whitespace-collapsing leaves in front
of the first word, when the list starts with whitespace and has a word
at all. -/
def leadMark (l : List Char) : List Char :=
  match l with
  | [] => []
  | c :: _ => if pyIsSpace c ∧ wordsOf l ≠ [] then [' '] else []

/-- Canonicalization in words form: the whitespace-free words of the
filtered, decomposed, lowercased text, joined by single spaces. -/
def normWords (l : List Char) : List Char := joinWords (wordsOf (pipeS l))

/-- The ledger-relevant slice of `generate_qr_code` (src/main.py:1249):
strip the two names, reject if either is empty, derive the security key
and build the history entry that `add_to_history` appends.  (QR image
rendering and the mailto link are outside the modelled core.) -/
def generate_qr_code (equipe1 equipe2 date heure now : String) :
    Option HistoryEntry :=
  let equipe1_raw := String.mk (pyStripList equipe1.data)
  let equipe2_raw := String.mk (pyStripList equipe2.data)
  if equipe1_raw = "" ∨ equipe2_raw = "" then none
  else
    let security_key := generate_security_key equipe1_raw equipe2_raw date heure
    some (mkHistoryEntry now equipe1_raw equipe2_raw date heure security_key)

/-! ## Character-level facts -/

theorem pyLowerChar_ws {c : Char} (h : pyIsSpace c = true) : pyLowerChar c = c := by
  unfold pyIsSpace at h
  simp only [Bool.or_eq_true, Bool.and_eq_true, decide_eq_true_eq, beq_iff_eq,
    Nat.le_iff_lt_or_eq] at h
  unfold pyLowerChar
  dsimp only
  split
  · next hc => omega
  · split
    · next hc => omega
    · rfl

theorem decompTable_keys :
    ∀ e ∈ decompTable, 0xC0 ≤ e.1 ∧ e.1 ≤ 0xFF := by decide

theorem decomp_ws {c : Char} (h : pyIsSpace c = true) : decomp c = [c] := by
  unfold decomp
  cases hf : decompTable.find? (fun e => e.1 == c.toNat) with
  | none => rfl
  | some e =>
    exfalso
    have hmem := List.mem_of_find?_eq_some hf
    have hkey := List.find?_some hf
    simp only [beq_iff_eq] at hkey
    have hrange := decompTable_keys e hmem
    unfold pyIsSpace at h
    simp only [Bool.or_eq_true, Bool.and_eq_true, decide_eq_true_eq, beq_iff_eq] at h
    omega

theorem isMn_ws {c : Char} (h : pyIsSpace c = true) : isMn c = false := by
  unfold pyIsSpace at h
  simp only [Bool.or_eq_true, Bool.and_eq_true, decide_eq_true_eq, beq_iff_eq] at h
  unfold isMn
  rw [Bool.eq_false_iff]
  intro hc
  simp only [Bool.and_eq_true, decide_eq_true_eq] at hc
  omega

theorem keepChar_ws {c : Char} (h : pyIsSpace c = true) : keepChar c = true := by
  unfold keepChar
  rw [h]
  simp

/-! ## The filter/decompose pipeline -/

theorem pipeS_append (a b : List Char) : pipeS (a ++ b) = pipeS a ++ pipeS b := by
  unfold pipeS
  simp [List.filter_append, List.flatMap_append]

theorem pipeS_cons (c : Char) (l : List Char) :
    pipeS (c :: l) = pipeS [c] ++ pipeS l := by
  simpa using pipeS_append [c] l

theorem pipeS_ws_fixed {p : List Char} (hp : ∀ c ∈ p, pyIsSpace c = true) :
    pipeS p = p := by
  induction p with
  | nil => rfl
  | cons c cs ih =>
    have hc := hp c (by simp)
    have hcs := ih (fun x hx => hp x (by simp [hx]))
    rw [pipeS_cons, hcs]
    have : pipeS [c] = [c] := by
      unfold pipeS
      simp only [List.map_cons, List.map_nil, List.flatMap_cons, List.flatMap_nil,
        List.append_nil]
      rw [pyLowerChar_ws hc, decomp_ws hc]
      simp [List.filter_cons, isMn_ws hc, keepChar_ws hc]
    rw [this]
    rfl

theorem pipeS_single_ws {w : Char} (hw : pyIsSpace w = true) : pipeS [w] = [w] :=
  pipeS_ws_fixed (by intro c hc; simp at hc; subst hc; exact hw)

/-! ## Word splitting -/

/-- Accumulators that yield the same words: equal after discarding
empty words, and agreeing on whether the current (head) word is open. -/
def wsR (a b : List (List Char)) : Prop :=
  a.filter (fun w => w ≠ []) = b.filter (fun w => w ≠ []) ∧
    (a.headD [] = [] ↔ b.headD [] = [])

theorem wsR_refl (a : List (List Char)) : wsR a a := ⟨rfl, Iff.rfl⟩

theorem wordsAux_ws (c : Char) (acc : List (List Char)) (hc : pyIsSpace c = true) :
    wordsAux c acc = [] :: acc := by
  unfold wordsAux; rw [if_pos hc]

theorem wordsAux_nonws_nil (c : Char) (hc : pyIsSpace c = false) :
    wordsAux c [] = [[c]] := by
  unfold wordsAux; rw [if_neg (by simp [hc])]

theorem wordsAux_nonws_cons (c : Char) (w : List Char) (ws : List (List Char))
    (hc : pyIsSpace c = false) : wordsAux c (w :: ws) = (c :: w) :: ws := by
  unfold wordsAux; rw [if_neg (by simp [hc])]

theorem filter_nil_cons (a : List (List Char)) :
    (([] : List Char) :: a).filter (fun w => w ≠ []) = a.filter (fun w => w ≠ []) := by
  simp

theorem filter_cons_ne (w : List Char) (a : List (List Char)) (hw : w ≠ []) :
    (w :: a).filter (fun x => x ≠ []) = w :: a.filter (fun x => x ≠ []) := by
  simp [List.filter_cons, hw]

theorem wordsAux_wsR {a b : List (List Char)} (c : Char) (h : wsR a b) :
    wsR (wordsAux c a) (wordsAux c b) := by
  obtain ⟨hf, hh⟩ := h
  by_cases hc : pyIsSpace c
  · rw [wordsAux_ws c a hc, wordsAux_ws c b hc]
    exact ⟨by rw [filter_nil_cons, filter_nil_cons, hf], by simp⟩
  · have hc' : pyIsSpace c = false := by simpa using hc
    cases a with
    | nil =>
      cases b with
      | nil => exact wsR_refl _
      | cons w' bs =>
        have hb : w' = [] := by simpa using hh.mp rfl
        subst hb
        rw [wordsAux_nonws_nil c hc', wordsAux_nonws_cons c [] bs hc']
        have hbs : bs.filter (fun w => w ≠ []) = [] := by
          rw [filter_nil_cons] at hf; exact hf.symm
        refine ⟨?_, by simp⟩
        rw [filter_cons_ne [c] [] (by simp), filter_cons_ne (c :: []) bs (by simp), hbs]
        rfl
    | cons w as =>
      cases b with
      | nil =>
        have ha : w = [] := by simpa using hh.mpr rfl
        subst ha
        rw [wordsAux_nonws_cons c [] as hc', wordsAux_nonws_nil c hc']
        have has : as.filter (fun w => w ≠ []) = [] := by
          rw [filter_nil_cons] at hf; exact hf
        refine ⟨?_, by simp⟩
        rw [filter_cons_ne [c] [] (by simp), filter_cons_ne (c :: []) as (by simp), has]
        rfl
      | cons w' bs =>
        rw [wordsAux_nonws_cons c w as hc', wordsAux_nonws_cons c w' bs hc']
        by_cases hw : w = []
        · subst hw
          have hw' : w' = [] := by simpa using hh.mp rfl
          subst hw'
          rw [filter_nil_cons, filter_nil_cons] at hf
          refine ⟨?_, by simp⟩
          rw [filter_cons_ne _ as (by simp), filter_cons_ne _ bs (by simp), hf]
        · have hw' : w' ≠ [] := by
            intro he
            exact hw (by simpa using hh.mpr (by simp [he]))
          rw [filter_cons_ne w as hw, filter_cons_ne w' bs hw'] at hf
          obtain ⟨he, ht⟩ := List.cons_eq_cons.mp hf
          subst he
          refine ⟨?_, by simp [hw]⟩
          rw [filter_cons_ne _ as (by simp), filter_cons_ne _ bs (by simp), ht]

theorem foldr_wordsAux_wsR {a b : List (List Char)} (L : List Char) (h : wsR a b) :
    wsR (L.foldr wordsAux a) (L.foldr wordsAux b) := by
  induction L with
  | nil => exact h
  | cons c cs ih => exact wordsAux_wsR c ih

/-- Words are insensitive to the accumulator structure up to `wsR`. -/
theorem wordsOf_acc_eq {a b : List (List Char)} (L : List Char) (h : wsR a b) :
    (L.foldr wordsAux a).filter (fun w => w ≠ []) =
    (L.foldr wordsAux b).filter (fun w => w ≠ []) :=
  (foldr_wordsAux_wsR L h).1

theorem foldr_wordsAux_ws_filter {p : List Char} (A : List (List Char))
    (hp : ∀ c ∈ p, pyIsSpace c = true) :
    (p.foldr wordsAux A).filter (fun w => w ≠ []) = A.filter (fun w => w ≠ []) := by
  induction p with
  | nil => rfl
  | cons c cs ih =>
    have hc := hp c (by simp)
    have := ih (fun x hx => hp x (by simp [hx]))
    simp only [List.foldr_cons]
    unfold wordsAux
    rw [if_pos hc]
    simpa using this

theorem wordsOf_ws_front {p l : List Char} (hp : ∀ c ∈ p, pyIsSpace c = true) :
    wordsOf (p ++ l) = wordsOf l := by
  unfold wordsOf
  rw [List.foldr_append]
  exact foldr_wordsAux_ws_filter _ hp

theorem foldr_wordsAux_ws_wsR {p : List Char} (hp : ∀ c ∈ p, pyIsSpace c = true) :
    wsR (p.foldr wordsAux []) [] := by
  refine ⟨by simpa using foldr_wordsAux_ws_filter [] hp, ?_⟩
  cases p with
  | nil => simp
  | cons c cs =>
    simp only [List.foldr_cons]
    unfold wordsAux
    rw [if_pos (hp c (by simp))]
    simp

theorem wordsOf_ws_suffix {l p : List Char} (hp : ∀ c ∈ p, pyIsSpace c = true) :
    wordsOf (l ++ p) = wordsOf l := by
  unfold wordsOf
  rw [List.foldr_append]
  exact wordsOf_acc_eq l (foldr_wordsAux_ws_wsR hp)

/-- Duplicating a whitespace character next to a whitespace character
does not change the words. -/
theorem wordsOf_ws_dup {A B : List Char} {w w' : Char}
    (hw : pyIsSpace w = true) (hw' : pyIsSpace w' = true) :
    wordsOf (A ++ w :: w' :: B) = wordsOf (A ++ w :: B) := by
  unfold wordsOf
  rw [List.foldr_append, List.foldr_append]
  refine wordsOf_acc_eq A ?_
  simp only [List.foldr_cons]
  unfold wordsAux
  rw [if_pos hw, if_pos hw', if_pos hw]
  exact ⟨by simp, by simp⟩

/-! ## Stripping and collapsing versus words -/

theorem pyStripList_eq (l : List Char) :
    pyStripList l = dropTrailWs (l.dropWhile pyIsSpace) := rfl

theorem dropTrailWs_eq_nil_iff {X : List Char} :
    dropTrailWs X = [] ↔ X.reverse.dropWhile pyIsSpace = [] := by
  unfold dropTrailWs
  exact List.reverse_eq_nil_iff

theorem dropTrailWs_cons (c : Char) (X : List Char) :
    dropTrailWs (c :: X) =
      if dropTrailWs X = [] then (if pyIsSpace c then [] else [c])
      else c :: dropTrailWs X := by
  unfold dropTrailWs
  rw [List.reverse_cons, List.dropWhile_append]
  by_cases h : X.reverse.dropWhile pyIsSpace = []
  · rw [h]
    simp only [List.isEmpty_nil, if_true, List.reverse_eq_nil_iff.mpr h, if_pos rfl]
    by_cases hc : pyIsSpace c
    · simp [List.dropWhile_cons, hc]
    · simp [List.dropWhile_cons, hc]
  · rw [if_neg (by simpa [List.isEmpty_iff] using h)]
    rw [List.reverse_append]
    rw [if_neg (by simpa [dropTrailWs_eq_nil_iff] using h)]
    simp

theorem dropTrail_dropLead_comm (X : List Char) :
    dropTrailWs (X.dropWhile pyIsSpace) = (dropTrailWs X).dropWhile pyIsSpace := by
  induction X with
  | nil => rfl
  | cons c X' ih =>
    by_cases hc : pyIsSpace c
    · rw [List.dropWhile_cons_of_pos hc, ih, dropTrailWs_cons]
      by_cases h : dropTrailWs X' = []
      · rw [if_pos h, if_pos hc, h]
      · rw [if_neg h, List.dropWhile_cons_of_pos hc]
    · have hc' : ¬(pyIsSpace c = true) := hc
      rw [List.dropWhile_cons_of_neg hc', dropTrailWs_cons]
      by_cases h : dropTrailWs X' = []
      · rw [if_pos h, if_neg hc, List.dropWhile_cons_of_neg hc']
      · rw [if_neg h, List.dropWhile_cons_of_neg hc']

/-! Characters inside words are never whitespace, and words are never
empty. -/

theorem foldr_wordsAux_chars (L : List Char) (A : List (List Char))
    (hA : ∀ w ∈ A, ∀ ch ∈ w, pyIsSpace ch = false) :
    ∀ w ∈ L.foldr wordsAux A, ∀ ch ∈ w, pyIsSpace ch = false := by
  induction L with
  | nil => exact hA
  | cons c cs ih =>
    intro w hw ch hch
    simp only [List.foldr_cons] at hw
    by_cases hc : pyIsSpace c
    · rw [wordsAux_ws c _ hc] at hw
      simp only [List.mem_cons] at hw
      rcases hw with hw | hw
      · simp [hw] at hch
      · exact ih w hw ch hch
    · have hc' : pyIsSpace c = false := by simpa using hc
      cases hF : cs.foldr wordsAux A with
      | nil =>
        rw [hF, wordsAux_nonws_nil c hc'] at hw
        simp only [List.mem_singleton] at hw
        subst hw
        simp only [List.mem_singleton] at hch
        subst hch
        exact hc'
      | cons w' ws' =>
        rw [hF, wordsAux_nonws_cons c w' ws' hc'] at hw
        simp only [List.mem_cons] at hw
        rcases hw with hw | hw
        · subst hw
          simp only [List.mem_cons] at hch
          rcases hch with hch | hch
          · subst hch; exact hc'
          · exact ih w' (by rw [hF]; simp) ch hch
        · exact ih w (by rw [hF]; simp [hw]) ch hch

theorem wordsOf_chars (l : List Char) :
    ∀ w ∈ wordsOf l, ∀ ch ∈ w, pyIsSpace ch = false := by
  intro w hw
  exact foldr_wordsAux_chars l [] (by simp) w (List.mem_of_mem_filter hw)

theorem wordsOf_ne_nil (l : List Char) : ∀ w ∈ wordsOf l, w ≠ [] := by
  intro w hw
  have := List.of_mem_filter hw
  simpa using this

theorem wordsOf_cons_ws {c : Char} (l : List Char) (hc : pyIsSpace c = true) :
    wordsOf (c :: l) = wordsOf l := by
  have : c :: l = [c] ++ l := rfl
  rw [this, wordsOf_ws_front (by intro x hx; simp at hx; subst hx; exact hc)]

theorem wordsOf_cons_nonws_ne_nil {d : Char} (cs : List Char)
    (hd : pyIsSpace d = false) : wordsOf (d :: cs) ≠ [] := by
  unfold wordsOf
  simp only [List.foldr_cons]
  cases hF : cs.foldr wordsAux [] with
  | nil => rw [wordsAux_nonws_nil d hd]; simp
  | cons w' ws' =>
    rw [wordsAux_nonws_cons d w' ws' hd, filter_cons_ne _ _ (by simp)]
    simp

theorem wordsOf_cons_cons_ws {c d : Char} (cs : List Char)
    (hc : pyIsSpace c = false) (hd : pyIsSpace d = true) :
    wordsOf (c :: d :: cs) = [c] :: wordsOf (d :: cs) := by
  unfold wordsOf
  simp only [List.foldr_cons]
  rw [wordsAux_ws d _ hd, wordsAux_nonws_cons c [] _ hc]
  rw [filter_cons_ne _ _ (by simp), filter_nil_cons]

theorem wordsOf_cons_cons_nonws {c d : Char} (cs : List Char)
    (hc : pyIsSpace c = false) (hd : pyIsSpace d = false) :
    ∃ w W, wordsOf (d :: cs) = (d :: w) :: W ∧
      wordsOf (c :: d :: cs) = (c :: d :: w) :: W := by
  unfold wordsOf
  simp only [List.foldr_cons]
  cases hF : cs.foldr wordsAux [] with
  | nil =>
    rw [wordsAux_nonws_nil d hd, wordsAux_nonws_cons c [d] [] hc]
    exact ⟨[], [], by simp, by simp⟩
  | cons w' ws' =>
    rw [wordsAux_nonws_cons d w' ws' hd, wordsAux_nonws_cons c (d :: w') ws' hc]
    refine ⟨w', ws'.filter (fun w => w ≠ []), ?_, ?_⟩
    · rw [filter_cons_ne _ _ (by simp)]
    · rw [filter_cons_ne _ _ (by simp)]

/-! Joining words -/

theorem joinWords_cons_cons (c : Char) (w : List Char) (W : List (List Char)) :
    joinWords ((c :: w) :: W) = c :: joinWords (w :: W) := by
  cases W with
  | nil => rfl
  | cons x xs => rfl

theorem joinWords_ne_nil {w : List Char} {W : List (List Char)} (hw : w ≠ []) :
    joinWords (w :: W) ≠ [] := by
  cases w with
  | nil => exact absurd rfl hw
  | cons ch w' =>
    rw [joinWords_cons_cons]
    simp

/-- The crux: "collapse whitespace runs, then strip trailing
whitespace" equals the words joined by single spaces, after the single
possible leading space. -/
theorem leadMark_cons (c : Char) (tl : List Char) :
    leadMark (c :: tl) =
      if pyIsSpace c ∧ wordsOf (c :: tl) ≠ [] then [' '] else [] := rfl

theorem dropTrail_collapse (l : List Char) :
    dropTrailWs (collapseWs l) = leadMark l ++ joinWords (wordsOf l) := by
  induction l using collapseWs.induct with
  | case1 => rfl
  | case2 c hc =>
    rw [show collapseWs [c] = [' '] by simp only [collapseWs]; rw [if_pos hc]]
    have h1 : dropTrailWs [' '] = [] := by
      unfold dropTrailWs
      rw [show [' '].reverse = [' '] from rfl, List.dropWhile_cons_of_pos (by decide)]
      rfl
    have h2 : wordsOf [c] = [] := by
      rw [wordsOf_cons_ws [] hc]; rfl
    rw [h1, h2, leadMark_cons, if_neg (by simp [h2])]
    rfl
  | case3 c hc =>
    have hc' : pyIsSpace c = false := by simpa using hc
    rw [show collapseWs [c] = [c] by simp only [collapseWs]; rw [if_neg hc]]
    have h1 : dropTrailWs [c] = [c] := by
      unfold dropTrailWs
      rw [show [c].reverse = [c] from rfl, List.dropWhile_cons_of_neg (by simp [hc'])]
      rfl
    have h2 : wordsOf [c] = [[c]] := by
      unfold wordsOf
      simp only [List.foldr_cons, List.foldr_nil]
      rw [wordsAux_nonws_nil c hc', filter_cons_ne _ _ (by simp)]
      rfl
    rw [h1, h2, leadMark_cons, if_neg (by simp [hc'])]
    rfl
  | case4 c d cs hc hd ih =>
    rw [show collapseWs (c :: d :: cs) = collapseWs (d :: cs) by
      simp only [collapseWs]; rw [if_pos hc, if_pos hd]]
    rw [ih]
    have hw : wordsOf (c :: d :: cs) = wordsOf (d :: cs) := wordsOf_cons_ws _ hc
    rw [leadMark_cons, leadMark_cons, hw]
    simp [hc, hd]
  | case5 c d cs hc hd ih =>
    have hd' : pyIsSpace d = false := by simpa using hd
    rw [show collapseWs (c :: d :: cs) = ' ' :: collapseWs (d :: cs) by
      simp only [collapseWs]; rw [if_pos hc, if_neg hd]]
    rw [dropTrailWs_cons, ih]
    have hlm : leadMark (d :: cs) = [] := by
      rw [leadMark_cons]; rw [if_neg (by simp [hd'])]
    rw [hlm, List.nil_append]
    have hne : wordsOf (d :: cs) ≠ [] := wordsOf_cons_nonws_ne_nil cs hd'
    obtain ⟨w, W, hwW⟩ : ∃ w W, wordsOf (d :: cs) = w :: W := by
      cases h : wordsOf (d :: cs) with
      | nil => exact absurd h hne
      | cons w W => exact ⟨w, W, rfl⟩
    have hwne : w ≠ [] := wordsOf_ne_nil (d :: cs) w (by rw [hwW]; simp)
    rw [if_neg (by rw [hwW]; exact joinWords_ne_nil hwne)]
    have hw : wordsOf (c :: d :: cs) = wordsOf (d :: cs) := wordsOf_cons_ws _ hc
    rw [leadMark_cons, hw, if_pos ⟨hc, hne⟩]
    rfl
  | case6 c d cs hc ih =>
    have hc' : pyIsSpace c = false := by simpa using hc
    rw [show collapseWs (c :: d :: cs) = c :: collapseWs (d :: cs) by
      simp only [collapseWs]; rw [if_neg hc]]
    rw [dropTrailWs_cons, ih]
    by_cases hd : pyIsSpace d
    · have hw := wordsOf_cons_cons_ws cs hc' hd
      cases hW : wordsOf (d :: cs) with
      | nil =>
        have hlm : leadMark (d :: cs) = [] := by
          rw [leadMark_cons]; rw [if_neg (by simp [hW])]
        rw [hlm]
        rw [if_pos (show ([] : List Char) ++ joinWords ([] : List (List Char)) = []
          from rfl)]
        rw [if_neg hc]
        rw [leadMark_cons, if_neg (by rw [hc']; simp)]
        rw [hw, hW]
        rfl
      | cons w W =>
        have hlm : leadMark (d :: cs) = [' '] := by
          rw [leadMark_cons]
          rw [if_pos ⟨hd, by simp [hW]⟩]
        rw [hlm]
        rw [if_neg (by simp)]
        rw [leadMark_cons, if_neg (by simp [hc'])]
        rw [hw, hW]
        rfl
    · have hd' : pyIsSpace d = false := by simpa using hd
      obtain ⟨w, W, h1, h2⟩ := wordsOf_cons_cons_nonws cs hc' hd'
      have hlm : leadMark (d :: cs) = [] := by
        rw [leadMark_cons]; rw [if_neg (by rw [hd']; simp)]
      rw [hlm, h1, h2, List.nil_append]
      rw [if_neg (joinWords_ne_nil (by simp))]
      rw [leadMark_cons, if_neg (by rw [hc']; simp)]
      rw [List.nil_append, joinWords_cons_cons, joinWords_cons_cons,
        joinWords_cons_cons]

/-- Collapse-then-strip equals the words joined by single spaces. -/
theorem strip_collapse_eq (l : List Char) :
    pyStripList (collapseWs l) = joinWords (wordsOf l) := by
  rw [pyStripList_eq, dropTrail_dropLead_comm, dropTrail_collapse]
  cases hW : wordsOf l with
  | nil =>
    cases l with
    | nil => rfl
    | cons c cs =>
      rw [leadMark_cons, if_neg (by simp [hW])]
      rfl
  | cons w W =>
    have hwne : w ≠ [] := wordsOf_ne_nil l w (by rw [hW]; simp)
    obtain ⟨ch, w', hw⟩ : ∃ ch w', w = ch :: w' := by
      cases w with
      | nil => exact absurd rfl hwne
      | cons ch w' => exact ⟨ch, w', rfl⟩
    have hch : pyIsSpace ch = false :=
      wordsOf_chars l w (by rw [hW]; simp) ch (by rw [hw]; simp)
    have hjoin : (joinWords (w :: W)).dropWhile pyIsSpace = joinWords (w :: W) := by
      rw [hw, joinWords_cons_cons, List.dropWhile_cons_of_neg (by simp [hch])]
    cases l with
    | nil => simp [wordsOf] at hW
    | cons c cs =>
      rw [leadMark_cons]
      by_cases hcond : pyIsSpace c ∧ wordsOf (c :: cs) ≠ []
      · rw [if_pos hcond]
        rw [show [' '] ++ joinWords (w :: W) = ' ' :: joinWords (w :: W) from rfl]
        rw [List.dropWhile_cons_of_pos (by decide), hjoin]
      · rw [if_neg hcond, List.nil_append, hjoin]

/-! ## Canonicalization: source form equals words form -/

theorem normalize_eq_canonical (s : String) :
    normalize_string s = canonicalize_spec s := by
  by_cases h : s = ""
  · subst h; rfl
  · unfold normalize_string
    rw [if_neg h]
    exact congrArg String.mk (strip_collapse_eq _)

theorem ws_all_reverse {l : List Char} (h : ∀ c ∈ l, pyIsSpace c = true) :
    ∀ c ∈ l.reverse, pyIsSpace c = true := by
  intro c hc
  exact h c (List.mem_reverse.mp hc)

theorem strip_decomp (l : List Char) :
    l = l.takeWhile pyIsSpace ++
      (pyStripList l ++ ((l.dropWhile pyIsSpace).reverse.takeWhile pyIsSpace).reverse) := by
  conv_lhs => rw [← List.takeWhile_append_dropWhile pyIsSpace l]
  congr 1
  conv_lhs => rw [← List.reverse_reverse (l.dropWhile pyIsSpace)]
  conv_lhs =>
    rw [← List.takeWhile_append_dropWhile pyIsSpace (l.dropWhile pyIsSpace).reverse]
  rw [List.reverse_append]
  rfl

theorem normWords_strip (l : List Char) :
    normWords (pyStripList l) = normWords l := by
  unfold normWords
  congr 1
  have hpre : ∀ c ∈ l.takeWhile pyIsSpace, pyIsSpace c = true :=
    fun c hc => List.mem_takeWhile_imp hc
  have hpost : ∀ c ∈ ((l.dropWhile pyIsSpace).reverse.takeWhile pyIsSpace).reverse,
      pyIsSpace c = true :=
    ws_all_reverse (fun c hc => List.mem_takeWhile_imp hc)
  conv_rhs => rw [strip_decomp l]
  rw [pipeS_append, pipeS_append]
  rw [pipeS_ws_fixed hpre, pipeS_ws_fixed hpost]
  rw [wordsOf_ws_front hpre, wordsOf_ws_suffix hpost]

theorem normalize_repr (s : String) :
    normalize_string s = String.mk (normWords s.data) := by
  rw [normalize_eq_canonical]
  unfold canonicalize_spec
  exact congrArg String.mk (normWords_strip s.data)

theorem normalize_strip_inv (s : String) :
    normalize_string (String.mk (pyStripList s.data)) = normalize_string s := by
  rw [normalize_repr, normalize_repr]
  exact congrArg String.mk (normWords_strip s.data)

/-! ## The key derivation respects canonical equality -/

theorem gsk_congr {a a' b b' : String} (d t : String)
    (ha : normalize_string a = normalize_string a')
    (hb : normalize_string b = normalize_string b') :
    generate_security_key a b d t = generate_security_key a' b' d t := by
  unfold generate_security_key
  rw [ha, hb]

theorem gsk_strip_left (a b d t : String) :
    generate_security_key (String.mk (pyStripList a.data)) b d t =
    generate_security_key a b d t :=
  gsk_congr d t (normalize_strip_inv a) rfl

theorem gsk_strip_both (a b d t : String) :
    generate_security_key (String.mk (pyStripList a.data))
      (String.mk (pyStripList b.data)) d t =
    generate_security_key a b d t :=
  gsk_congr d t (normalize_strip_inv a) (normalize_strip_inv b)

/-! ## NameEquiv preserves canonicalization -/

theorem normWords_caseStep (xs ys : List Char) (c c' : Char)
    (h : pyLowerChar c = pyLowerChar c') :
    normWords (xs ++ c :: ys) = normWords (xs ++ c' :: ys) := by
  unfold normWords
  have : pipeS (xs ++ c :: ys) = pipeS (xs ++ c' :: ys) := by
    rw [pipeS_append, pipeS_append, pipeS_cons, pipeS_cons c' ys]
    unfold pipeS
    simp only [List.map_cons, List.map_nil, List.flatMap_cons, List.flatMap_nil,
      List.append_nil]
    rw [h]
  rw [this]

theorem normWords_accentStep (xs ys : List Char) (c b : Char) (ms : List Char)
    (h1 : decomp (pyLowerChar c) = pyLowerChar b :: ms)
    (h2 : ∀ m ∈ ms, isMn m = true)
    (h3 : decomp (pyLowerChar b) = [pyLowerChar b])
    (h4 : isMn (pyLowerChar b) = false) :
    normWords (xs ++ c :: ys) = normWords (xs ++ b :: ys) := by
  unfold normWords
  have : pipeS (xs ++ c :: ys) = pipeS (xs ++ b :: ys) := by
    rw [pipeS_append, pipeS_append, pipeS_cons, pipeS_cons b ys]
    have hc : pipeS [c] = pipeS [b] := by
      unfold pipeS
      simp only [List.map_cons, List.map_nil, List.flatMap_cons, List.flatMap_nil,
        List.append_nil]
      rw [h1, h3]
      congr 1
      rw [List.filter_cons, List.filter_cons]
      rw [if_pos (by simp [h4]), if_pos (by simp [h4])]
      have : ms.filter (fun c => !(isMn c)) = [] := by
        rw [List.filter_eq_nil_iff]
        intro m hm
        simp [h2 m hm]
      rw [this, List.filter_nil]
    rw [hc]
  rw [this]

theorem normWords_wsStep (xs ys : List Char) (w w' : Char)
    (h1 : pyIsSpace w = true) (h2 : pyIsSpace w' = true) :
    normWords (xs ++ w :: ys) = normWords (xs ++ w :: w' :: ys) := by
  unfold normWords
  congr 1
  have e1 : pipeS (xs ++ w :: ys) = pipeS xs ++ w :: pipeS ys := by
    rw [pipeS_append, pipeS_cons, pipeS_single_ws h1]
    rfl
  have e2 : pipeS (xs ++ w :: w' :: ys) = pipeS xs ++ w :: w' :: pipeS ys := by
    rw [pipeS_append, pipeS_cons, pipeS_single_ws h1, pipeS_cons, pipeS_single_ws h2]
    rfl
  rw [e1, e2]
  exact (wordsOf_ws_dup h1 h2).symm

theorem normWords_nameEquiv {l m : List Char} (h : NameEquiv l m) :
    normWords l = normWords m := by
  induction h with
  | refl l => rfl
  | symm _ ih => exact ih.symm
  | trans _ _ ih1 ih2 => exact ih1.trans ih2
  | caseStep xs ys c c' h => exact normWords_caseStep xs ys c c' h
  | accentStep xs ys c b ms h1 h2 h3 h4 =>
    exact normWords_accentStep xs ys c b ms h1 h2 h3 h4
  | wsStep xs ys w w' h1 h2 => exact normWords_wsStep xs ys w w' h1 h2

theorem normalize_nameEquiv {a a' : String} (h : NameEquiv a.data a'.data) :
    normalize_string a = normalize_string a' := by
  rw [normalize_repr, normalize_repr]
  exact congrArg String.mk (normWords_nameEquiv h)

/-! ## Verifier plumbing -/

theorem String_mk_eq_empty_iff (l : List Char) : String.mk l = "" ↔ l = [] := by
  constructor
  · intro h
    have := congrArg String.data h
    simpa using this
  · intro h; subst h; rfl

theorem mk_length (l : List Char) : (String.mk l).length = l.length := rfl

theorem reports_valid_outcome (b : Bool) (m : String) :
    reports_valid (VerifyResult.outcome b m) = b := rfl

/-! ## Claim theorems -/

/-- C1: for every attribute set with non-empty (trimmed) participant
names and every candidate whose trimmed length is exactly 10, `verify`
reports `valid = true` iff the uppercased (trimmed) candidate equals
the token `derive` produces on the same attributes with the fixed
Secret. -/
theorem C1_verify_valid_iff_matches_derive
    (equipe1 equipe2 candidate date heure : String)
    (h1 : pyStripList equipe1.data ≠ [])
    (h2 : pyStripList equipe2.data ≠ [])
    (h3 : (pyStripList candidate.data).length = 10) :
    reports_valid (verify_key equipe1 equipe2 candidate date heure) = true ↔
      String.mk ((pyStripList candidate.data).map pyUpperChar) =
        generate_security_key equipe1 equipe2 date heure := by
  have he1 : ¬(String.mk (pyStripList equipe1.data) = "") := by
    rw [String_mk_eq_empty_iff]; exact h1
  have he2 : ¬(String.mk (pyStripList equipe2.data) = "") := by
    rw [String_mk_eq_empty_iff]; exact h2
  have hkl : (String.mk ((pyStripList candidate.data).map pyUpperChar)).length = 10 := by
    rw [mk_length, List.length_map]; exact h3
  have hk : ¬(String.mk ((pyStripList candidate.data).map pyUpperChar) = "") := by
    rw [String_mk_eq_empty_iff, List.map_eq_nil_iff]
    intro h
    rw [h] at h3
    simp at h3
  simp only [verify_key]
  rw [if_neg (by tauto)]
  rw [if_neg (by rw [hkl]; simp)]
  rw [reports_valid_outcome, beq_iff_eq, gsk_strip_both]

theorem C1_witness :
    pyStripList "Les Aigles".data ≠ [] ∧
    pyStripList "Les Lions".data ≠ [] ∧
    (pyStripList " 0123456789 ".data).length = 10 ∧
    (reports_valid
        (verify_key "Les Aigles" "Les Lions" " 0123456789 " "2025-06-20" "18:30") = true ↔
      String.mk ((pyStripList " 0123456789 ".data).map pyUpperChar) =
        generate_security_key "Les Aigles" "Les Lions" "2025-06-20" "18:30") :=
  ⟨by decide, by decide, by decide,
    C1_verify_valid_iff_matches_derive "Les Aigles" "Les Lions" " 0123456789 "
      "2025-06-20" "18:30" (by decide) (by decide) (by decide)⟩

/-- C2: `derive` is deterministic and refines the spec's algorithm:
canonicalize both names, join the fields with `;` in the stated order,
SHA-256 the UTF-8 bytes, keep the first 10 hex characters, uppercase
them; equal inputs give equal tokens. -/
theorem C2_derive_follows_spec (a b d t : String) :
    generate_security_key a b d t = derive_spec a b d t ∧
    ∀ a' b' d' t', a = a' → b = b' → d = d' → t = t' →
      generate_security_key a b d t = generate_security_key a' b' d' t' := by
  constructor
  · unfold generate_security_key derive_spec
    rw [normalize_eq_canonical, normalize_eq_canonical]
  · intro a' b' d' t' ha hb hd ht
    subst ha; subst hb; subst hd; subst ht
    rfl

theorem C2_witness :
    generate_security_key "Les Aigles Rouges" "Les Lions Bleus" "2025-06-20" "18:30" =
      derive_spec "Les Aigles Rouges" "Les Lions Bleus" "2025-06-20" "18:30" ∧
    generate_security_key "Les Aigles Rouges" "Les Lions Bleus" "2025-06-20" "18:30" =
      generate_security_key "Les Aigles Rouges" "Les Lions Bleus" "2025-06-20" "18:30" :=
  ⟨(C2_derive_follows_spec "Les Aigles Rouges" "Les Lions Bleus" "2025-06-20" "18:30").1,
    (C2_derive_follows_spec "Les Aigles Rouges" "Les Lions Bleus" "2025-06-20" "18:30").2
      _ _ _ _ rfl rfl rfl rfl⟩

/-- C3: participant names that differ only by letter case, accents, or
runs of internal whitespace yield the same token for equal dates and
times. -/
theorem C3_derive_respects_name_equiv (a a' b b' date heure : String)
    (ha : NameEquiv a.data a'.data) (hb : NameEquiv b.data b'.data) :
    generate_security_key a b date heure =
      generate_security_key a' b' date heure :=
  gsk_congr date heure (normalize_nameEquiv ha) (normalize_nameEquiv hb)

theorem C3_witness :
    NameEquiv "Àb".data "ab".data ∧ NameEquiv "c d".data "c  d".data ∧
    generate_security_key "Àb" "c d" "2025-06-20" "18:30" =
      generate_security_key "ab" "c  d" "2025-06-20" "18:30" := by
  have hcase : NameEquiv ['À', 'b'] ['à', 'b'] :=
    NameEquiv.caseStep [] ['b'] 'À' 'à' (by decide)
  have haccent : NameEquiv ['à', 'b'] ['a', 'b'] :=
    NameEquiv.accentStep [] ['b'] 'à' 'a' ['\u0300']
      (by decide) (by decide) (by decide) (by decide)
  have ha : NameEquiv "Àb".data "ab".data := hcase.trans haccent
  have hb : NameEquiv "c d".data "c  d".data :=
    NameEquiv.wsStep ['c'] ['d'] ' ' ' ' (by decide) (by decide)
  exact ⟨ha, hb, C3_derive_respects_name_equiv "Àb" "ab" "c d" "c  d"
    "2025-06-20" "18:30" ha hb⟩

/-- C5 (counterexample): an all-whitespace candidate has trimmed length
0 ≠ 10, yet `verify` signals the missing-fields error, not the
input-length error, even with both participant fields filled. -/
theorem C5_counterexample :
    (pyStripList "   ".data).length ≠ 10 ∧
    verify_key "a" "b" "   " "2025-06-20" "18:30" = VerifyResult.missingFields ∧
    VerifyResult.missingFields ≠ VerifyResult.lengthError := by
  refine ⟨by decide, ?_, by decide⟩
  decide

/-- C5 (amended): for every candidate whose trimmed length is not 10,
`verify` never reports `valid = true`; it signals the input-length
error when the trimmed candidate and both trimmed participant names are
non-empty, and the missing-fields error takes precedence otherwise. -/
theorem C5_length_guard (equipe1 equipe2 candidate date heure : String)
    (hlen : (pyStripList candidate.data).length ≠ 10) :
    reports_valid (verify_key equipe1 equipe2 candidate date heure) = false ∧
    (pyStripList equipe1.data ≠ [] → pyStripList equipe2.data ≠ [] →
      pyStripList candidate.data ≠ [] →
      verify_key equipe1 equipe2 candidate date heure = VerifyResult.lengthError) := by
  have hkl : (String.mk ((pyStripList candidate.data).map pyUpperChar)).length =
      (pyStripList candidate.data).length := by
    rw [mk_length, List.length_map]
  by_cases hor : String.mk (pyStripList equipe1.data) = "" ∨
      String.mk (pyStripList equipe2.data) = "" ∨
      String.mk ((pyStripList candidate.data).map pyUpperChar) = ""
  · constructor
    · simp only [verify_key]
      rw [if_pos hor]
      rfl
    · intro h1 h2 h3
      exfalso
      rcases hor with h | h | h
      · exact h1 (by rwa [String_mk_eq_empty_iff] at h)
      · exact h2 (by rwa [String_mk_eq_empty_iff] at h)
      · rw [String_mk_eq_empty_iff, List.map_eq_nil_iff] at h
        exact h3 h
  · have : verify_key equipe1 equipe2 candidate date heure =
        VerifyResult.lengthError := by
      simp only [verify_key]
      rw [if_neg hor]
      rw [if_pos (by rw [hkl]; exact hlen)]
    exact ⟨by rw [this]; rfl, fun _ _ _ => this⟩

theorem C5_witness :
    (pyStripList " ABC ".data).length ≠ 10 ∧
    verify_key "a" "b" " ABC " "2025-06-20" "18:30" = VerifyResult.lengthError :=
  ⟨by decide,
    (C5_length_guard "a" "b" " ABC " "2025-06-20" "18:30" (by decide)).2
      (by decide) (by decide) (by decide)⟩

/-- C10: a candidate that is empty after trimming is rejected as a
missing required field before the length check, so the length error is
only ever signalled for non-empty trimmed candidates. -/
theorem C10_empty_candidate_is_missing_field
    (equipe1 equipe2 candidate date heure : String) :
    (pyStripList candidate.data = [] →
      verify_key equipe1 equipe2 candidate date heure = VerifyResult.missingFields) ∧
    (verify_key equipe1 equipe2 candidate date heure = VerifyResult.lengthError →
      pyStripList candidate.data ≠ []) := by
  have hfirst : pyStripList candidate.data = [] →
      verify_key equipe1 equipe2 candidate date heure = VerifyResult.missingFields := by
    intro h
    simp only [verify_key]
    rw [if_pos (Or.inr (Or.inr (by rw [h]; rfl)))]
  refine ⟨hfirst, fun hv h => ?_⟩
  rw [hfirst h] at hv
  exact absurd hv (by decide)

theorem C10_witness :
    pyStripList "  ".data = [] ∧
    verify_key "x" "y" "  " "2025-01-01" "09:00" = VerifyResult.missingFields :=
  ⟨by decide,
    (C10_empty_candidate_is_missing_field "x" "y" "  " "2025-01-01" "09:00").1
      (by decide)⟩

/-! ## Template renderer equations -/

theorem dropWhile_no_close (name tail : List Char) (h : ∀ c ∈ name, c ≠ '}') :
    (name ++ '}' :: tail).dropWhile (fun c => c ≠ '}') = '}' :: tail := by
  induction name with
  | nil => simp [List.dropWhile_cons]
  | cons c cs ih =>
    rw [List.cons_append, List.dropWhile_cons_of_pos (by simpa using h c (by simp))]
    exact ih (fun x hx => h x (by simp [hx]))

theorem takeWhile_no_close (name tail : List Char) (h : ∀ c ∈ name, c ≠ '}') :
    (name ++ '}' :: tail).takeWhile (fun c => c ≠ '}') = name := by
  induction name with
  | nil => simp [List.takeWhile_cons]
  | cons c cs ih =>
    rw [List.cons_append, List.takeWhile_cons_of_pos (by simpa using h c (by simp))]
    rw [ih (fun x hx => h x (by simp [hx]))]

theorem splitField_name (name tail : List Char) (h : ∀ c ∈ name, c ≠ '}') :
    splitField (name ++ '}' :: tail) = some (name, tail) := by
  unfold splitField
  rw [dropWhile_no_close name tail h]
  show some ((name ++ '}' :: tail).takeWhile (fun c => c ≠ '}'), tail) =
    some (name, tail)
  rw [takeWhile_no_close name tail h]

theorem formatList_nil (v : String → Option String) : formatList v [] = .ok [] := by
  simp [formatList]

theorem formatList_lit (v : String → Option String) (c : Char) (l : List Char)
    (h1 : c ≠ '{') (h2 : c ≠ '}') :
    formatList v (c :: l) = (fun t => c :: t) <$> formatList v l := by
  simp [formatList, h1, h2]

theorem formatList_field (v : String → Option String) (name tail : List Char)
    (h : ∀ c ∈ name, c ≠ '{' ∧ c ≠ '}') :
    formatList v ('{' :: (name ++ '}' :: tail)) =
      match v (String.mk name) with
      | some val => (fun t => val.data ++ t) <$> formatList v tail
      | none => .error (.unknownField (String.mk name)) := by
  have helem : ¬(List.elem '{' name = true) := by
    intro hE
    exact (h '{' (by simpa using List.mem_of_elem_eq_true hE)).1 rfl
  rw [formatList.eq_def]
  split
  · next heq => exact absurd heq (by simp)
  · next rest heq =>
    exfalso
    injection heq with h1 h2
    cases name with
    | nil =>
      rw [List.nil_append] at h2
      injection h2 with h2a h2b
      exact absurd h2a (by decide)
    | cons c cs =>
      rw [List.cons_append] at h2
      injection h2 with h2a h2b
      exact (h c (by simp)).1 h2a
  · next rest heq =>
    exfalso
    injection heq with h1 h2
    exact absurd h1 (by decide)
  · next tl hno heq =>
    exfalso
    injection heq with h1 h2
    exact absurd h1 (by decide)
  · next rest hno heq =>
    injection heq with h1 h2
    subst h2
    rw [splitField_name name tail (fun c hc => (h c hc).2)]
    split
    · next name1 rest2 heq2 =>
      injection heq2 with heq2
      injection heq2 with heqa heqb
      subst heqa
      subst heqb
      rw [if_neg helem]
    · next heq2 => exact absurd heq2 (by simp)
  · next cc rest hno1 hno2 hno3 hno4 heq =>
    exfalso
    injection heq with h1 h2
    exact hno4 h1.symm

theorem formatList_flatten (v : String → Option String) (segs : List Seg)
    (h : ∀ s ∈ segs, goodSeg s) :
    formatList v (flattenSegs segs) = renderSegs v segs := by
  induction segs with
  | nil => exact formatList_nil v
  | cons s rest ih =>
    have hrest := fun x hx => h x (List.mem_cons_of_mem _ hx)
    cases s with
    | lit c =>
      have hc : c ≠ '{' ∧ c ≠ '}' := h (.lit c) (by simp)
      have hfl : flattenSegs (Seg.lit c :: rest) = c :: flattenSegs rest := rfl
      rw [hfl, formatList_lit v c _ hc.1 hc.2, ih hrest]
      rfl
    | field n =>
      have hn : ∀ ch ∈ n.data, ch ≠ '{' ∧ ch ≠ '}' := h (.field n) (by simp)
      have hfl : flattenSegs (Seg.field n :: rest) =
          '{' :: (n.data ++ '}' :: flattenSegs rest) := by
        simp [flattenSegs, flattenSeg]
      rw [hfl, formatList_field v n.data _ hn]
      have hS : String.mk n.data = n := rfl
      rw [hS]
      show (match v n with
        | some val => (fun t => val.data ++ t) <$> formatList v (flattenSegs rest)
        | none => Except.error (.unknownField n)) = renderSegs v (Seg.field n :: rest)
      cases hv : v n with
      | some val =>
        simp only [renderSegs, hv]
        rw [ih hrest]
      | none => simp only [renderSegs, hv]

/-- C6 (amended): rendering substitutes every recognized placeholder
occurrence with its bound value, but a placeholder naming an
unrecognized variable aborts rendering with an unknown-field error
instead of being left as literal text. -/
theorem C6_render_segments (equipe1 equipe2 date heure security_key : String)
    (segs : List Seg) (h : ∀ s ∈ segs, goodSeg s) :
    create_mailto_body (String.mk (flattenSegs segs))
        equipe1 equipe2 date heure security_key =
      (renderSegs (mailtoVars equipe1 equipe2 date heure security_key) segs).map
        String.mk := by
  unfold create_mailto_body pyFormat
  rw [show (String.mk (flattenSegs segs)).data = flattenSegs segs from rfl]
  rw [formatList_flatten _ _ h]

/-- C6 (counterexample): the template `{AUTRE}` names no recognized
variable; rendering raises an unknown-field error rather than passing
the token through as literal text. -/
theorem C6_counterexample :
    create_mailto_body "{AUTRE}" "a" "b" "2025-06-20" "18:30" "ABCDEF1234" =
      Except.error (FormatError.unknownField "AUTRE") := by
  unfold create_mailto_body pyFormat
  rw [show ("{AUTRE}" : String).data =
    flattenSegs [Seg.field "AUTRE"] from rfl]
  rw [formatList_flatten _ _ (by decide)]
  rfl

theorem C6_witness :
    (∀ s ∈ [Seg.lit 'K', Seg.lit 'e', Seg.lit 'y', Seg.lit ':', Seg.lit ' ',
      Seg.field "CLE"], goodSeg s) ∧
    create_mailto_body
        (String.mk (flattenSegs [Seg.lit 'K', Seg.lit 'e', Seg.lit 'y',
          Seg.lit ':', Seg.lit ' ', Seg.field "CLE"]))
        "a" "b" "2025-06-20" "18:30" "ABC123DEF0" =
      (renderSegs (mailtoVars "a" "b" "2025-06-20" "18:30" "ABC123DEF0")
        [Seg.lit 'K', Seg.lit 'e', Seg.lit 'y', Seg.lit ':', Seg.lit ' ',
          Seg.field "CLE"]).map String.mk :=
  ⟨by decide,
    C6_render_segments "a" "b" "2025-06-20" "18:30" "ABC123DEF0" _ (by decide)⟩

/-! ## History ledger -/

theorem appendAll_spec (inputs : List (String × String × String × String × String × String))
    (st : AppState) :
    (appendAll st inputs).generation_history =
      st.generation_history ++ inputs.map entryOf ∧
    (appendAll st inputs).store =
      if inputs.isEmpty then st.store
      else Store.content ((appendAll st inputs).generation_history) := by
  induction inputs generalizing st with
  | nil => exact ⟨by simp [appendAll], by simp [appendAll]⟩
  | cons i is ih =>
    have hstep : appendAll st (i :: is) =
        appendAll ⟨st.generation_history ++ [entryOf i],
          Store.content (st.generation_history ++ [entryOf i])⟩ is := rfl
    rw [hstep]
    obtain ⟨hg, hs⟩ := ih ⟨st.generation_history ++ [entryOf i],
      Store.content (st.generation_history ++ [entryOf i])⟩
    constructor
    · rw [hg]
      simp
    · rw [hs]
      cases is with
      | nil => simp [hg]
      | cons j js => simp

/-- C7: starting from an empty ledger, `load` after N consecutive
`append` calls (each write succeeding) returns exactly N entries, in
append order, each equal to the entry that was appended. -/
theorem C7_load_roundtrip
    (inputs : List (String × String × String × String × String × String)) :
    load_history ((appendAll initialState inputs).store) = inputs.map entryOf ∧
    (load_history ((appendAll initialState inputs).store)).length = inputs.length := by
  obtain ⟨hg, hs⟩ := appendAll_spec inputs initialState
  have hload : load_history ((appendAll initialState inputs).store) =
      inputs.map entryOf := by
    cases inputs with
    | nil => rfl
    | cons i is =>
      rw [hs]
      rw [if_neg (by simp)]
      show (appendAll initialState (i :: is)).generation_history = (i :: is).map entryOf
      rw [hg]
      rfl
  exact ⟨hload, by rw [hload]; simp⟩

/-- C8 (counterexample): with one entry persisted, an append whose
write fails mid-way surfaces no error to the caller and leaves the
backing store corrupt — neither the old nor the new ledger state. -/
theorem C8_counterexample :
    (add_to_history
        ⟨[mkHistoryEntry "t0" "a" "b" "2025-01-01" "10:00" "ABCDEF1234"],
          Store.content [mkHistoryEntry "t0" "a" "b" "2025-01-01" "10:00" "ABCDEF1234"]⟩
        "t1" "c" "d" "2025-01-02" "11:00" "1234ABCDEF" WriteOutcome.midFail).2
      = false ∧
    (add_to_history
        ⟨[mkHistoryEntry "t0" "a" "b" "2025-01-01" "10:00" "ABCDEF1234"],
          Store.content [mkHistoryEntry "t0" "a" "b" "2025-01-01" "10:00" "ABCDEF1234"]⟩
        "t1" "c" "d" "2025-01-02" "11:00" "1234ABCDEF" WriteOutcome.midFail).1.store
      = Store.corrupt ∧
    Store.corrupt ≠
      Store.content [mkHistoryEntry "t0" "a" "b" "2025-01-01" "10:00" "ABCDEF1234"] := by
  refine ⟨rfl, rfl, ?_⟩
  decide

/-- C8 (amended): a write failure during `append` or `clear` is caught
and ignored — no error reaches the caller and the in-memory list is
still updated; a failure to open leaves the previously persisted state
unchanged, a full success persists the new list, but a mid-write
failure leaves the backing file corrupt, which subsequently loads as
empty. -/
theorem C8_write_failure_swallowed (st : AppState)
    (now equipe1 equipe2 date heure security_key : String) (o : WriteOutcome) :
    (add_to_history st now equipe1 equipe2 date heure security_key o).2 = false ∧
    (clear_history st o).2 = false ∧
    (add_to_history st now equipe1 equipe2 date heure security_key o).1.generation_history =
      st.generation_history ++ [mkHistoryEntry now equipe1 equipe2 date heure security_key] ∧
    (o = WriteOutcome.openFail →
      (add_to_history st now equipe1 equipe2 date heure security_key o).1.store = st.store ∧
      (clear_history st o).1.store = st.store) ∧
    (o = WriteOutcome.ok →
      (add_to_history st now equipe1 equipe2 date heure security_key o).1.store =
        Store.content (st.generation_history ++
          [mkHistoryEntry now equipe1 equipe2 date heure security_key]) ∧
      (clear_history st o).1.store = Store.content []) ∧
    (o = WriteOutcome.midFail →
      load_history (add_to_history st now equipe1 equipe2 date heure security_key o).1.store = [] ∧
      load_history (clear_history st o).1.store = []) := by
  cases o with
  | ok =>
    refine ⟨rfl, rfl, rfl, ?_, ?_, ?_⟩
    · intro h; exact absurd h (by decide)
    · intro _; exact ⟨rfl, rfl⟩
    · intro h; exact absurd h (by decide)
  | openFail =>
    refine ⟨rfl, rfl, rfl, ?_, ?_, ?_⟩
    · intro _; exact ⟨rfl, rfl⟩
    · intro h; exact absurd h (by decide)
    · intro h; exact absurd h (by decide)
  | midFail =>
    refine ⟨rfl, rfl, rfl, ?_, ?_, ?_⟩
    · intro h; exact absurd h (by decide)
    · intro h; exact absurd h (by decide)
    · intro _; exact ⟨rfl, rfl⟩

theorem C8_witness :
    (add_to_history ⟨[], Store.content []⟩
        "t1" "c" "d" "2025-01-02" "11:00" "1234ABCDEF" WriteOutcome.openFail).2 = false ∧
    (add_to_history ⟨[], Store.content []⟩
        "t1" "c" "d" "2025-01-02" "11:00" "1234ABCDEF" WriteOutcome.openFail).1.store =
      Store.content [] :=
  ⟨(C8_write_failure_swallowed ⟨[], Store.content []⟩
      "t1" "c" "d" "2025-01-02" "11:00" "1234ABCDEF" WriteOutcome.openFail).1,
    ((C8_write_failure_swallowed ⟨[], Store.content []⟩
      "t1" "c" "d" "2025-01-02" "11:00" "1234ABCDEF" WriteOutcome.openFail).2.2.2.1
      rfl).1⟩

/-- C9: every history entry created by a successful generation stores a
token that re-running the deriver on the entry's own stored fields
reproduces exactly. -/
theorem C9_ledger_auditable (equipe1 equipe2 date heure now : String)
    (entry : HistoryEntry)
    (h : generate_qr_code equipe1 equipe2 date heure now = some entry) :
    generate_security_key entry.equipe1 entry.equipe2 entry.date entry.heure =
      entry.security_key := by
  unfold generate_qr_code at h
  by_cases hc : String.mk (pyStripList equipe1.data) = "" ∨
      String.mk (pyStripList equipe2.data) = ""
  · rw [if_pos hc] at h
    exact absurd h (by simp)
  · rw [if_neg hc] at h
    injection h with h
    subst h
    show generate_security_key
        (String.mk (pyStripList (String.mk (pyStripList equipe1.data)).data))
        (String.mk (pyStripList (String.mk (pyStripList equipe2.data)).data))
        date heure =
      generate_security_key (String.mk (pyStripList equipe1.data))
        (String.mk (pyStripList equipe2.data)) date heure
    exact gsk_strip_both (String.mk (pyStripList equipe1.data))
      (String.mk (pyStripList equipe2.data)) date heure

theorem C9_witness :
    ∃ entry, generate_qr_code " Les Aigles " "Les Lions" "2025-06-20" "18:30"
        "2025-06-20T10:00:00" = some entry ∧
      generate_security_key entry.equipe1 entry.equipe2 entry.date entry.heure =
        entry.security_key :=
  ⟨_, rfl, C9_ledger_auditable " Les Aigles " "Les Lions" "2025-06-20" "18:30"
    "2025-06-20T10:00:00" _ rfl⟩

end ArbitreQR
